import Mathlib

/-!
Service start-up of rinit (`service.go`)

A shallow embedding of `service.go`: the `runState` values and their `String`
method, the `Service` record, `Service.Start`, `Service.NeedsSatisfied`, the
body of the goroutine that `StartServices` launches for every service, and
`StartServices` itself.

Effects of the program (printing, logging, sleeping, locking, running the
start-up command) are recorded in a chronological list of `Event`s.  What the
outside world answers (the result of running a command, the contents of the
shared map when another goroutine may have written to it) is given by oracles
that the theorems quantify over.

The goroutine is embedded twice.  `launchAttempt` is its body as a function, for
a record that no other goroutine writes in the meantime.  `stepAt` is the same
body cut into steps, so that several goroutines can run on shared records, on
the shared map and on the wait group in any order (`runSchedule`,
`StartServices`); `solo_is_launchAttempt` shows that a goroutine that takes all
its steps in a row does what `launchAttempt` does.
-/

namespace Rinit

/-! ## Data model -/

/-- Modelled from the spec: the declaration of `ServiceName` is not in
`service.go`; the spec calls it an identifying label, taken here as a string. -/
abbrev ServiceName := String

/-- Modelled from the spec: the declaration of `ServiceType` is not in
`service.go`; the spec calls it an opaque comparable identifier (a string
token), usable as a map key. -/
abbrev ServiceType := String

/-- Modelled from the spec: the declaration of `Command` is not in
`service.go`; the spec calls it an opaque command string. -/
abbrev Command := String

/-- Modelled from the spec: `Command.String()` is not in `service.go`; it yields
the command text handed to the shell. -/
def Command.String (c : Command) : String := c

/-- Go `error` values, identified by their message; `none` stands for `nil`. -/
abbrev Error := String

/-- The type `runState uint8`: any value below 256 can be stored, the five
named ones are the valid ones. -/
structure runState where
  val : Fin 256
  deriving DecidableEq, Repr

def notStarted : runState := ⟨0⟩
def starting : runState := ⟨1⟩
def started : runState := ⟨2⟩
def stopped : runState := ⟨3⟩
def errored : runState := ⟨4⟩

/-- The method `func (rs runState) String() string`. -/
def runState.String (rs : runState) : String :=
  if rs = notStarted then "not started"
  else if rs = starting then "being started"
  else if rs = started then "already started"
  else if rs = stopped then "stopped"
  else if rs = errored then "errored"
  else "in an invalid state"

structure Service where
  Name : ServiceName
  Startup : Command
  Shutdown : Command
  Provides : List ServiceType
  Needs : List ServiceType
  state : runState
  deriving DecidableEq, Repr

/-- The value of a `map[ServiceType]bool`: a key is absent (`none`) or bound to
a boolean. -/
abbrev Registry := ServiceType → Option Bool

/-- The map made by `make(map[ServiceType]bool)`. -/
def Registry.empty : Registry := fun _ => none

/-- The Go index expression `m[k]`: the zero value `false` for an absent key. -/
def Registry.index (m : Registry) (k : ServiceType) : Bool := (m k).getD false

/-- The Go assignment `m[k] = v`. -/
def Registry.assign (m : Registry) (k : ServiceType) (v : Bool) : Registry :=
  fun j => if j = k then some v else m j

/-- What a goroutine does to the outside world, in the order it does it. -/
inductive Event where
  | stdout (line : String)
  | logged (line : String)
  | run (argv : List String)
  | sleep (seconds : Nat)
  | rlock
  | runlock
  | lock
  | unlock
  | wgDone
  deriving DecidableEq, Repr

abbrev Trace := List Event

/-- The answer of `cmd.Run()`: it may depend on everything that happened before
and on the command line; `none` is a nil error. -/
abbrev Shell := Trace → List String → Option Error

/-! ## `Service.Start` -/

/-- The method `func (s *Service) Start() error`: the service after the call,
the returned error and the events so far. -/
def Service.Start (s : Service) (sh : Shell) (tr : Trace) : Service × Option Error × Trace :=
  if s.state ≠ notStarted then
    (s, some ("Service " ++ s.Name ++ " is " ++ s.state.String), tr)
  else
    let tr1 := tr ++ [Event.stdout ("Starting service " ++ s.Name)]
    let s1 := { s with state := starting }
    let argv := ["/usr/bin/sh", "-c", Command.String s1.Startup]
    let tr2 := tr1 ++ [Event.run argv]
    match sh tr1 argv with
    | some err => ({ s1 with state := errored }, some err, tr2)
    | none =>
      ({ s1 with state := started }, none, tr2 ++ [Event.stdout ("Started service " ++ s1.Name)])

/-- How many times a command was run in a trace. -/
def runCount : Trace → Nat
  | [] => 0
  | Event.run _ :: rest => runCount rest + 1
  | _ :: rest => runCount rest

/-! ## `Service.NeedsSatisfied` -/

/-- The `for _, st := range s.Needs` loop of `NeedsSatisfied`, with its early
`return false`. -/
def needsLoop (started : Registry) : List ServiceType → Bool
  | [] => true
  | st :: rest => if !(started.index st) then false else needsLoop started rest

/-- The method `func (s Service) NeedsSatisfied(started, mu) bool`: the result,
the map after the call and the events so far (`RLock`, and `RUnlock` deferred
to the return). -/
def Service.NeedsSatisfied (s : Service) (startedMap : Registry) (tr : Trace) :
    Bool × Registry × Trace :=
  let tr1 := tr ++ [Event.rlock]
  let result := needsLoop startedMap s.Needs
  (result, startedMap, tr1 ++ [Event.runlock])

/-! ## The goroutine of `StartServices` -/

/-- The loop `for satisfied, tries := false, 0; satisfied == false && tries < 60; tries++`
with body `satisfied = s.NeedsSatisfied(..); time.Sleep(2 * time.Second)`.
`polls i` is the content of the shared map when the poll with `tries = i`
reads it.  The first argument bounds the number of iterations; `none` means the
bound was too small.  The result is the final `satisfied`, the final `tries`
and the events so far. -/
def readinessLoop (s : Service) (polls : Nat → Registry) :
    Nat → Bool → Nat → Trace → Option (Bool × Nat × Trace)
  | 0, satisfied, tries, tr =>
    if satisfied == false && decide (tries < 60) then none else some (satisfied, tries, tr)
  | fuel + 1, satisfied, tries, tr =>
    if satisfied == false && decide (tries < 60) then
      let r := s.NeedsSatisfied (polls tries) tr
      readinessLoop s polls fuel r.1 (tries + 1) (r.2.2 ++ [Event.sleep 2])
    else some (satisfied, tries, tr)

/-- The statement `if err := s.Start(); err != nil { log.Println(err) }`, applied
to what `Start` returned. -/
def logErr (r : Service × Option Error × Trace) : Service × Trace :=
  match r.2.1 with
  | some err => (r.1, r.2.2 ++ [Event.logged err])
  | none => (r.1, r.2.2)

/-- The statement `if s.state == notStarted { ... s.Start() ... }`. -/
def startStep (s : Service) (sh : Shell) (tr : Trace) : Service × Trace :=
  if s.state = notStarted then logErr (s.Start sh tr) else (s, tr)

/-- The loop `for _, t := range s.Provides { startedTypes[t] = true }`. -/
def publish (m : Registry) : List ServiceType → Registry
  | [] => m
  | t :: rest => publish (m.assign t true) rest

/-- The end of the goroutine: `startedMu.Lock()`, the publishing loop,
`startedMu.Unlock()`, `wg.Done()`.  `atPublish` is the content of the shared
map when the write lock is obtained. -/
def publishStep (atPublish : Registry) (r : Service × Trace) : Service × Registry × Trace :=
  (r.1, publish atPublish r.1.Provides, r.2 ++ [Event.lock, Event.unlock, Event.wgDone])

/-- What one goroutine meets while it runs: the content of the shared map at
each of its polls and when it publishes (other goroutines write to the map in
between), and the answers of the shell. -/
structure Env where
  polls : Nat → Registry
  atPublish : Registry
  sh : Shell

/-- The body of `go func(s *Service) { ... }(s)` in `StartServices`, for a record
that no other goroutine writes while this one runs: `s` is the record as the
start step reads it.  The result is the service, the shared map and the events
when the goroutine ends. -/
def launchAttempt (s : Service) (env : Env) (tr : Trace) : Option (Service × Registry × Trace) :=
  match readinessLoop s env.polls 60 false 0 tr with
  | none => none
  | some r => some (publishStep env.atPublish (startStep s env.sh r.2.2))

/-! ## `StartServices`: goroutines on shared records -/

/-- Where a goroutine of `StartServices` stands in its body: at the condition of
the readiness loop (line 62, with its two variables), at the test
`s.state == notStarted` of line 67, in `Start()` at the test of line 88, in
`Start()` before the assignment `s.state = starting` of line 92, in `Start()`
inside `cmd.Run()` (line 95), at `startedMu.Lock()` (line 74), or after
`wg.Done()`. -/
inductive Pc where
  | loop (satisfied : Bool) (tries : Nat)
  | guard
  | enter
  | setStarting
  | inRun
  | publishing
  | done
  deriving DecidableEq, Repr

/-- What the goroutines of `StartServices` share, and where each of them stands:
the records behind the `*Service` pointers (by address), the map
`startedTypes`, the counter of the `sync.WaitGroup`, the events so far, and the
place of goroutine `j` in its body. -/
structure Machine where
  heap : Nat → Service
  startedTypes : Registry
  wg : Int
  tr : Trace
  pcs : Nat → Pc

/-- Goroutine `i` moves to `pc`. -/
def Machine.goto (m : Machine) (i : Nat) (pc : Pc) : Machine :=
  { m with pcs := fun j => if j = i then pc else m.pcs j }

/-- The assignment `s.state = st` through the pointer `p`. -/
def Machine.setState (m : Machine) (p : Nat) (st : runState) : Machine :=
  { m with heap := fun q => if q = p then { m.heap q with state := st } else m.heap q }

/-- More events. -/
def Machine.emit (m : Machine) (es : Trace) : Machine :=
  { m with tr := m.tr ++ es }

/-- The next step of goroutine `i`, whose `s` points to the record at `p`.  A step
holds one test or one assignment of `s.state`, or one locked access to the map
(the message of line 89 is built in the step of the test of line 88, the print
of line 91 goes with the assignment of line 92, and what follows the return of
`cmd.Run()` in `Start()` and at line 69 goes with the assignment of line 96 or
99); `sh` answers `cmd.Run()`. -/
def stepAt (sh : Shell) (p i : Nat) (m : Machine) : Machine :=
  match m.pcs i with
  | Pc.loop satisfied tries =>
    if satisfied == false && decide (tries < 60) then
      let r := (m.heap p).NeedsSatisfied m.startedTypes m.tr
      ({ m with startedTypes := r.2.1, tr := r.2.2 ++ [Event.sleep 2] }).goto i
        (Pc.loop r.1 (tries + 1))
    else m.goto i Pc.guard
  | Pc.guard =>
    if (m.heap p).state = notStarted then m.goto i Pc.enter else m.goto i Pc.publishing
  | Pc.enter =>
    if (m.heap p).state ≠ notStarted then
      (m.emit [Event.logged
        ("Service " ++ (m.heap p).Name ++ " is " ++ (m.heap p).state.String)]).goto i
        Pc.publishing
    else m.goto i Pc.setStarting
  | Pc.setStarting =>
    ((m.emit [Event.stdout ("Starting service " ++ (m.heap p).Name)]).setState p starting).goto i
      Pc.inRun
  | Pc.inRun =>
    match sh m.tr ["/usr/bin/sh", "-c", Command.String (m.heap p).Startup] with
    | some err =>
      (((m.emit [Event.run ["/usr/bin/sh", "-c", Command.String (m.heap p).Startup]]).setState
        p errored).emit [Event.logged err]).goto i Pc.publishing
    | none =>
      (((m.emit [Event.run ["/usr/bin/sh", "-c", Command.String (m.heap p).Startup]]).setState
        p started).emit [Event.stdout ("Started service " ++ (m.heap p).Name)]).goto i
        Pc.publishing
  | Pc.publishing =>
    ({ m with
        startedTypes := publish m.startedTypes (m.heap p).Provides,
        wg := m.wg - 1,
        tr := m.tr ++ [Event.lock, Event.unlock, Event.wgDone] }).goto i Pc.done
  | Pc.done => m

/-- The next step of goroutine `i`, when `ptrs` lists the pointer each goroutine
was launched with; there is no goroutine `i` beyond the list. -/
def step (sh : Shell) (ptrs : List Nat) (i : Nat) (m : Machine) : Machine :=
  match ptrs.get? i with
  | some p => stepAt sh p i m
  | none => m

/-- The goroutines take steps in the order of `schedule`. -/
def runSchedule (sh : Shell) (ptrs : List Nat) : List Nat → Machine → Machine
  | [], m => m
  | i :: rest, m => runSchedule sh ptrs rest (step sh ptrs i m)

/-- The pointers `StartServices` launches a goroutine with: every element of
every slice of the map `services`; a record listed twice gets two goroutines. -/
def launched : List (ServiceType × List Nat) → List Nat
  | [] => []
  | (_, group) :: rest => group ++ launched rest

/-- The sum of the `wg.Add(len(services))` of the outer loop. -/
def wgAdds : List (ServiceType × List Nat) → Int
  | [] => 0
  | (_, group) :: rest => (group.length : Int) + wgAdds rest

/-- The shared state when the goroutines are launched: the map made by `make` is
empty, the counter holds the sum of the `wg.Add` (`wg.Wait()` is called after
all of them), every goroutine is at the start of its readiness loop with
`satisfied, tries := false, 0`; a goroutine launched later than another is one
that takes its first step later. -/
def initialMachine (services : List (ServiceType × List Nat)) (heap : Nat → Service) : Machine :=
  { heap := heap, startedTypes := Registry.empty, wg := wgAdds services, tr := [],
    pcs := fun _ => Pc.loop false 0 }

/-- The function `StartServices` on the map `services` (slices of pointers into
`heap`): one goroutine is launched for every listed pointer, the goroutines
take steps in the order of `schedule`, and `wg.Wait()` lets the function return
when the counter is 0; `none` when the schedule ends before that. -/
def StartServices (services : List (ServiceType × List Nat)) (heap : Nat → Service)
    (sh : Shell) (schedule : List Nat) : Option Machine :=
  if (runSchedule sh (launched services) schedule (initialMachine services heap)).wg = 0 then
    some (runSchedule sh (launched services) schedule (initialMachine services heap))
  else none

/-- The places of a goroutine before its assignment `s.state = starting`. -/
def Pc.beforeWrite : Pc → Bool
  | Pc.loop _ _ => true
  | Pc.guard => true
  | Pc.enter => true
  | Pc.setStarting => true
  | _ => false

/-- What holds of the record at `p` at every moment of a run that began with the
record in `notStarted`: the state is one of four; while it is `notStarted` no
goroutine on the record is past the assignment of line 92; while it is
`starting` some goroutine on the record is inside `cmd.Run()`. -/
def recordInv (ptrs : List Nat) (p : Nat) (m : Machine) : Prop :=
  ((m.heap p).state = notStarted ∨ (m.heap p).state = starting
      ∨ (m.heap p).state = started ∨ (m.heap p).state = errored)
    ∧ ((m.heap p).state = notStarted →
        ∀ j, ptrs.get? j = some p → (m.pcs j).beforeWrite = true)
    ∧ ((m.heap p).state = starting → ∃ j, ptrs.get? j = some p ∧ m.pcs j = Pc.inRun)

/-- What also holds of the record at `p` at every moment: only its state differs
from the record `StartServices` was given, and in `started` or `errored` its
start-up command has been run. -/
def ranInv (heap : Nat → Service) (p : Nat) (m : Machine) : Prop :=
  ({ m.heap p with state := (heap p).state } = heap p)
    ∧ (((m.heap p).state = started ∨ (m.heap p).state = errored) →
        Event.run ["/usr/bin/sh", "-c", Command.String (heap p).Startup] ∈ m.tr)

/-- How many of the first `n` goroutines have not reached `wg.Done()`. -/
def pending (pcs : Nat → Pc) : Nat → Nat
  | 0 => 0
  | n + 1 => pending pcs n + (if pcs n = Pc.done then 0 else 1)

/-- The counter of the wait group is the number of goroutines that have not
called `wg.Done()`. -/
def wgInv (ptrs : List Nat) (m : Machine) : Prop :=
  m.wg = (pending m.pcs ptrs.length : Nat)

/-- A bound on the steps a goroutine has left. -/
def stepsLeft : Pc → Nat
  | Pc.loop _ tries => (60 - tries) + 6
  | Pc.guard => 5
  | Pc.enter => 4
  | Pc.setStarting => 3
  | Pc.inRun => 2
  | Pc.publishing => 1
  | Pc.done => 0

/-- Calling `Start()` a number of times in a row on the same service: the
service at the end, the error returned by each call in order, and the events. -/
def startTimes (sh : Shell) : Nat → Service → Trace → Service × List (Option Error) × Trace
  | 0, s, tr => (s, [], tr)
  | n + 1, s, tr =>
    let r := s.Start sh tr
    let q := startTimes sh n r.1 r.2.2
    (q.1, r.2.1 :: q.2.1, q.2.2)

/-- What the poll with `tries = i` of the readiness loop of `s` returns. -/
def pollResult (s : Service) (polls : Nat → Registry) (i : Nat) : Bool :=
  (s.NeedsSatisfied (polls i) []).1

/-! ## Measures on traces -/

/-- Number of polls of the shared map (one read lock each). -/
def pollCount : Trace → Nat
  | [] => 0
  | Event.rlock :: rest => pollCount rest + 1
  | _ :: rest => pollCount rest

/-- Total time slept, in seconds. -/
def sleepTotal : Trace → Nat
  | [] => 0
  | Event.sleep d :: rest => sleepTotal rest + d
  | _ :: rest => sleepTotal rest

/-- The events of one iteration of the readiness loop. -/
def pollEvents : Trace := [Event.rlock, Event.runlock, Event.sleep 2]

/-- The events of `n` iterations of the readiness loop. -/
def pollTrace : Nat → Trace
  | 0 => []
  | n + 1 => pollEvents ++ pollTrace n

/-! ## Sample inputs -/

def svcNet : Service :=
  { Name := "net", Startup := "ip link set lo up", Shutdown := "true",
    Provides := ["net"], Needs := [], state := notStarted }

def svcDb : Service :=
  { Name := "db", Startup := "dbd", Shutdown := "true",
    Provides := ["db"], Needs := ["net"], state := notStarted }

/-- A shell where every command succeeds. -/
def shOk : Shell := fun _ _ => none

/-- A shell where every command fails. -/
def shFail : Shell := fun _ _ => some "exit status 1"

/-- A service that provides two capabilities. -/
def svcTwo : Service :=
  { Name := "two", Startup := "twod", Shutdown := "true",
    Provides := ["x", "y"], Needs := [], state := notStarted }

/-- A heap with `svcTwo` at every address. -/
def heapTwo : Nat → Service := fun _ => svcTwo

/-- The map `{x: [a], y: [a]}`: the same pointer, address 0, in two slices. -/
def twiceListed : List (ServiceType × List Nat) := [("x", [0]), ("y", [0])]

/-- Nothing is ever published by anyone else. -/
def envNothing : Env := { polls := fun _ => Registry.empty, atPublish := Registry.empty, sh := shOk }

end Rinit

namespace Rinit

/-! ## Lemmas on traces and states -/

theorem runCount_append (a b : Trace) : runCount (a ++ b) = runCount a + runCount b := by
  induction a with
  | nil => simp [runCount]
  | cons e rest ih =>
    cases e <;> simp [runCount, ih]
    omega

theorem sleepTotal_append (a b : Trace) : sleepTotal (a ++ b) = sleepTotal a + sleepTotal b := by
  induction a with
  | nil => simp [sleepTotal]
  | cons e rest ih =>
    cases e <;> simp [sleepTotal, ih]
    omega

theorem pollCount_append (a b : Trace) : pollCount (a ++ b) = pollCount a + pollCount b := by
  induction a with
  | nil => simp [pollCount]
  | cons e rest ih =>
    cases e <;> simp [pollCount, ih]
    omega

theorem started_ne_notStarted : started ≠ notStarted := by decide

theorem errored_ne_notStarted : errored ≠ notStarted := by decide

theorem String_started : started.String = "already started" := by decide

theorem String_errored : errored.String = "errored" := by decide

/-! ## Lemmas on `Start` -/

theorem Start_blocked (s : Service) (sh : Shell) (tr : Trace) (h : s.state ≠ notStarted) :
    s.Start sh tr = (s, some ("Service " ++ s.Name ++ " is " ++ s.state.String), tr) := by
  simp [Service.Start, h]

theorem Start_success (s : Service) (sh : Shell) (tr : Trace) (h : s.state = notStarted)
    (hrun : sh (tr ++ [Event.stdout ("Starting service " ++ s.Name)])
      ["/usr/bin/sh", "-c", Command.String s.Startup] = none) :
    s.Start sh tr = ({ s with state := started }, none,
      tr ++ [Event.stdout ("Starting service " ++ s.Name)]
        ++ [Event.run ["/usr/bin/sh", "-c", Command.String s.Startup]]
        ++ [Event.stdout ("Started service " ++ s.Name)]) := by
  simp [Service.Start, h, hrun]

theorem Start_failure (s : Service) (sh : Shell) (tr : Trace) (e : Error)
    (h : s.state = notStarted)
    (hrun : sh (tr ++ [Event.stdout ("Starting service " ++ s.Name)])
      ["/usr/bin/sh", "-c", Command.String s.Startup] = some e) :
    s.Start sh tr = ({ s with state := errored }, some e,
      tr ++ [Event.stdout ("Starting service " ++ s.Name)]
        ++ [Event.run ["/usr/bin/sh", "-c", Command.String s.Startup]]) := by
  simp [Service.Start, h, hrun]

theorem Start_state (s : Service) (sh : Shell) (tr : Trace) (h : s.state = notStarted) :
    (s.Start sh tr).1.state = started ∨ (s.Start sh tr).1.state = errored := by
  cases hrun : sh (tr ++ [Event.stdout ("Starting service " ++ s.Name)])
      ["/usr/bin/sh", "-c", Command.String s.Startup] with
  | none => left; rw [Start_success s sh tr h hrun]
  | some e => right; rw [Start_failure s sh tr e h hrun]

theorem Start_runCount (s : Service) (sh : Shell) (tr : Trace) (h : s.state = notStarted) :
    runCount (s.Start sh tr).2.2 = runCount tr + 1 := by
  cases hrun : sh (tr ++ [Event.stdout ("Starting service " ++ s.Name)])
      ["/usr/bin/sh", "-c", Command.String s.Startup] with
  | none => rw [Start_success s sh tr h hrun]; simp [runCount_append, runCount]
  | some e => rw [Start_failure s sh tr e h hrun]; simp [runCount_append, runCount]

theorem Start_fields (s : Service) (sh : Shell) (tr : Trace) :
    (s.Start sh tr).1.Name = s.Name ∧ (s.Start sh tr).1.Provides = s.Provides
      ∧ (s.Start sh tr).1.Needs = s.Needs := by
  by_cases h : s.state = notStarted
  · cases hrun : sh (tr ++ [Event.stdout ("Starting service " ++ s.Name)])
        ["/usr/bin/sh", "-c", Command.String s.Startup] with
    | none => rw [Start_success s sh tr h hrun]; exact ⟨rfl, rfl, rfl⟩
    | some e => rw [Start_failure s sh tr e h hrun]; exact ⟨rfl, rfl, rfl⟩
  · rw [Start_blocked s sh tr h]; exact ⟨rfl, rfl, rfl⟩

theorem startTimes_blocked (sh : Shell) (n : Nat) (s : Service) (tr : Trace)
    (h : s.state ≠ notStarted) :
    startTimes sh n s tr
      = (s, List.replicate n (some ("Service " ++ s.Name ++ " is " ++ s.state.String)), tr) := by
  induction n with
  | zero => simp [startTimes]
  | succ n ih => simp [startTimes, Start_blocked s sh tr h, ih, List.replicate_succ]

/-! ## Lemmas on `NeedsSatisfied` and the readiness loop -/

theorem index_eq_true (m : Registry) (t : ServiceType) : m.index t = true ↔ m t = some true := by
  unfold Registry.index
  cases m t <;> simp

theorem needsLoop_iff (m : Registry) (needs : List ServiceType) :
    needsLoop m needs = true ↔ ∀ t ∈ needs, m t = some true := by
  induction needs with
  | nil => simp [needsLoop]
  | cons a rest ih =>
    by_cases ha : m.index a = true
    · simp [needsLoop, ha, ih, (index_eq_true m a).1 ha]
    · have hne : ¬ m a = some true := fun h => ha ((index_eq_true m a).2 h)
      simp [needsLoop, ha, hne]

theorem NeedsSatisfied_eq (s : Service) (m : Registry) (tr : Trace) :
    s.NeedsSatisfied m tr = (needsLoop m s.Needs, m, tr ++ [Event.rlock, Event.runlock]) := by
  simp [Service.NeedsSatisfied]

theorem pollResult_eq (s : Service) (polls : Nat → Registry) (i : Nat) :
    pollResult s polls i = needsLoop (polls i) s.Needs := rfl

theorem readinessLoop_satisfied (s : Service) (polls : Nat → Registry) (fuel tries : Nat)
    (tr : Trace) : readinessLoop s polls fuel true tries tr = some (true, tries, tr) := by
  cases fuel <;> simp [readinessLoop]

theorem readinessLoop_step (s : Service) (polls : Nat → Registry) (fuel tries : Nat)
    (tr : Trace) (h : tries < 60) :
    readinessLoop s polls (fuel + 1) false tries tr
      = readinessLoop s polls fuel (pollResult s polls tries) (tries + 1) (tr ++ pollEvents) := by
  simp [readinessLoop, h, NeedsSatisfied_eq, pollResult_eq, pollEvents]

theorem readinessLoop_budget (s : Service) (polls : Nat → Registry) (fuel tries : Nat)
    (tr : Trace) (h : 60 ≤ tries) :
    readinessLoop s polls fuel false tries tr = some (false, tries, tr) := by
  have : ¬ tries < 60 := by omega
  cases fuel <;> simp [readinessLoop, this]

theorem pollTrace_succ_end (n : Nat) : pollTrace (n + 1) = pollEvents ++ pollTrace n := rfl

theorem pollCount_pollTrace (n : Nat) : pollCount (pollTrace n) = n := by
  induction n with
  | zero => rfl
  | succ n ih => simp [pollTrace, pollEvents, pollCount, ih]

theorem sleepTotal_pollTrace (n : Nat) : sleepTotal (pollTrace n) = 2 * n := by
  induction n with
  | zero => rfl
  | succ n ih =>
    simp [pollTrace, pollEvents, sleepTotal, ih]
    omega

theorem runCount_pollTrace (n : Nat) : runCount (pollTrace n) = 0 := by
  induction n with
  | zero => rfl
  | succ n ih => simp [pollTrace, pollEvents, runCount, ih]

/-- The readiness loop, entered with `satisfied = false` and enough iterations
left in the bound, ends: at the first satisfied poll, or with `tries = 60`. -/
theorem readinessLoop_spec (s : Service) (polls : Nat → Registry) (fuel : Nat) :
    ∀ (tries : Nat) (tr : Trace), tries ≤ 60 → 60 ≤ fuel + tries →
      ∃ (n : Nat) (sat : Bool),
        readinessLoop s polls fuel false tries tr = some (sat, n, tr ++ pollTrace (n - tries))
          ∧ tries ≤ n ∧ n ≤ 60
          ∧ (∀ j, tries ≤ j → j + 1 < n → pollResult s polls j = false)
          ∧ ((sat = true ∧ tries < n ∧ pollResult s polls (n - 1) = true)
              ∨ (sat = false ∧ n = 60 ∧ ∀ j, tries ≤ j → j < 60 → pollResult s polls j = false)) := by
  induction fuel with
  | zero =>
    intro tries tr h1 h2
    have h60 : tries = 60 := by omega
    subst h60
    refine ⟨60, false, ?_, le_refl _, le_refl _, ?_, Or.inr ⟨rfl, rfl, ?_⟩⟩
    · simp [readinessLoop, pollTrace]
    · intro j hj1 hj2; omega
    · intro j hj1 hj2; omega
  | succ fuel ih =>
    intro tries tr h1 h2
    by_cases hlt : tries < 60
    · rw [readinessLoop_step s polls fuel tries tr hlt]
      cases hp : pollResult s polls tries with
      | true =>
        refine ⟨tries + 1, true, ?_, by omega, by omega, ?_, Or.inl ⟨rfl, by omega, ?_⟩⟩
        · rw [readinessLoop_satisfied]
          simp [pollTrace]
        · intro j hj1 hj2; omega
        · simpa using hp
      | false =>
        obtain ⟨n, sat, hrun, hle, hn, hbefore, hend⟩ :=
          ih (tries + 1) (tr ++ pollEvents) (by omega) (by omega)
        have hsplit : n - tries = (n - (tries + 1)) + 1 := by omega
        refine ⟨n, sat, ?_, by omega, hn, ?_, ?_⟩
        · rw [hrun, hsplit, pollTrace_succ_end, List.append_assoc]
        · intro j hj1 hj2
          by_cases hj : j = tries
          · rw [hj]; exact hp
          · exact hbefore j (by omega) hj2
        · rcases hend with ⟨h1, h2, h3⟩ | ⟨h1, h2, h3⟩
          · exact Or.inl ⟨h1, by omega, h3⟩
          · refine Or.inr ⟨h1, h2, ?_⟩
            intro j hj1 hj2
            by_cases hj : j = tries
            · rw [hj]; exact hp
            · exact h3 j (by omega) hj2
    · have h60 : tries = 60 := by omega
      subst h60
      refine ⟨60, false, ?_, le_refl _, le_refl _, ?_, Or.inr ⟨rfl, rfl, ?_⟩⟩
      · rw [readinessLoop_budget s polls (fuel + 1) 60 tr (le_refl _)]
        simp [pollTrace]
      · intro j hj1 hj2; omega
      · intro j hj1 hj2; omega

/-- The readiness loop as the goroutine runs it. -/
theorem readinessLoop_run (s : Service) (polls : Nat → Registry) (tr : Trace) :
    ∃ (n : Nat) (sat : Bool),
      readinessLoop s polls 60 false 0 tr = some (sat, n, tr ++ pollTrace n)
        ∧ 1 ≤ n ∧ n ≤ 60
        ∧ (∀ j, j + 1 < n → pollResult s polls j = false)
        ∧ ((sat = true ∧ pollResult s polls (n - 1) = true)
            ∨ (sat = false ∧ n = 60 ∧ ∀ j, j < 60 → pollResult s polls j = false)) := by
  obtain ⟨n, sat, hrun, _, hn, hbefore, hend⟩ :=
    readinessLoop_spec s polls 60 0 tr (by omega) (by omega)
  refine ⟨n, sat, by simpa using hrun, ?_, hn, fun j hj => hbefore j (by omega) hj, ?_⟩
  · rcases hend with ⟨_, h2, _⟩ | ⟨_, h2, _⟩ <;> omega
  · rcases hend with ⟨h1, _, h3⟩ | ⟨h1, h2, h3⟩
    · exact Or.inl ⟨h1, h3⟩
    · exact Or.inr ⟨h1, h2, fun j hj => h3 j (by omega) hj⟩

/-! ## Lemmas on the goroutine -/

theorem logErr_service (r : Service × Option Error × Trace) : (logErr r).1 = r.1 := by
  unfold logErr
  cases r.2.1 <;> rfl

theorem logErr_runCount (r : Service × Option Error × Trace) :
    runCount (logErr r).2 = runCount r.2.2 := by
  unfold logErr
  cases r.2.1 <;> simp [runCount_append, runCount]

theorem startStep_notStarted (s : Service) (sh : Shell) (tr : Trace) (h : s.state = notStarted) :
    startStep s sh tr = logErr (s.Start sh tr) := by
  simp [startStep, h]

theorem startStep_other (s : Service) (sh : Shell) (tr : Trace) (h : s.state ≠ notStarted) :
    startStep s sh tr = (s, tr) := by
  simp [startStep, h]

theorem startStep_Provides (s : Service) (sh : Shell) (tr : Trace) :
    (startStep s sh tr).1.Provides = s.Provides := by
  by_cases h : s.state = notStarted
  · rw [startStep_notStarted s sh tr h, logErr_service]
    exact (Start_fields s sh tr).2.1
  · rw [startStep_other s sh tr h]

theorem publish_apply (provides : List ServiceType) :
    ∀ (m : Registry) (t : ServiceType),
      publish m provides t = if t ∈ provides then some true else m t := by
  induction provides with
  | nil => intro m t; simp [publish]
  | cons a rest ih =>
    intro m t
    rw [publish, ih]
    by_cases h1 : t ∈ rest
    · simp [h1]
    · by_cases h2 : t = a
      · simp [h2, Registry.assign]
      · simp [h1, h2, Registry.assign]

/-- The goroutine always gets through its readiness loop, and then does the
start step and the publishing step on the events of the loop. -/
theorem launchAttempt_run (s : Service) (env : Env) (tr : Trace) :
    ∃ (n : Nat) (sat : Bool),
      readinessLoop s env.polls 60 false 0 tr = some (sat, n, tr ++ pollTrace n)
        ∧ launchAttempt s env tr
            = some (publishStep env.atPublish (startStep s env.sh (tr ++ pollTrace n)))
        ∧ 1 ≤ n ∧ n ≤ 60
        ∧ (∀ j, j + 1 < n → pollResult s env.polls j = false)
        ∧ ((sat = true ∧ pollResult s env.polls (n - 1) = true)
            ∨ (sat = false ∧ n = 60 ∧ ∀ j, j < 60 → pollResult s env.polls j = false)) := by
  obtain ⟨n, sat, hrun, h1, h2, h3, h4⟩ := readinessLoop_run s env.polls tr
  refine ⟨n, sat, hrun, ?_, h1, h2, h3, h4⟩
  simp [launchAttempt, hrun]

theorem pollResult_missing (s : Service) (polls : Nat → Registry) (x : ServiceType) (i : Nat)
    (hx : x ∈ s.Needs) (hmiss : (polls i).index x = false) : pollResult s polls i = false := by
  rw [pollResult_eq]
  cases hl : needsLoop (polls i) s.Needs with
  | false => rfl
  | true =>
    have := (index_eq_true (polls i) x).2 ((needsLoop_iff (polls i) s.Needs).1 hl x hx)
    rw [hmiss] at this
    cases this

/-- With a need that no poll finds, the loop uses its 60 polls and the goroutine
then calls `Start()` all the same. -/
theorem launchAttempt_missing (s : Service) (env : Env) (tr : Trace) (x : ServiceType)
    (hs : s.state = notStarted) (hx : x ∈ s.Needs)
    (hmiss : ∀ i, i < 60 → (env.polls i).index x = false) :
    readinessLoop s env.polls 60 false 0 tr = some (false, 60, tr ++ pollTrace 60)
      ∧ launchAttempt s env tr
          = some (publishStep env.atPublish (logErr (s.Start env.sh (tr ++ pollTrace 60)))) := by
  obtain ⟨n, sat, hrun, hatt, h1, h2, _, hend⟩ := launchAttempt_run s env tr
  have hn : n = 60 ∧ sat = false := by
    rcases hend with ⟨_, h4⟩ | ⟨h3, h4, _⟩
    · have := pollResult_missing s env.polls x (n - 1) hx (hmiss (n - 1) (by omega))
      rw [this] at h4
      cases h4
    · exact ⟨h4, h3⟩
  rw [hn.1, hn.2] at hrun
  rw [hn.1] at hatt
  exact ⟨hrun, by rw [hatt, startStep_notStarted s env.sh _ hs]⟩

theorem publishStep_runCount (m : Registry) (r : Service × Trace) :
    runCount (publishStep m r).2.2 = runCount r.2 := by
  simp [publishStep, runCount_append, runCount]

/-! ## Lemmas on the goroutines on shared records -/

theorem stepAt_pcs_other (sh : Shell) (p i j : Nat) (m : Machine) (h : j ≠ i) :
    (stepAt sh p i m).pcs j = m.pcs j := by
  unfold stepAt
  split
  · split <;> simp [Machine.goto, h]
  · split <;> simp [Machine.goto, h]
  · split <;> simp [Machine.goto, Machine.emit, h]
  · simp [Machine.goto, Machine.emit, Machine.setState, h]
  · split <;> simp [Machine.goto, Machine.emit, Machine.setState, h]
  · simp [Machine.goto, h]
  · rfl

theorem stepAt_heap_other (sh : Shell) (p i q : Nat) (m : Machine) (h : q ≠ p) :
    (stepAt sh p i m).heap q = m.heap q := by
  unfold stepAt
  split
  · split <;> simp [Machine.goto]
  · split <;> simp [Machine.goto]
  · split <;> simp [Machine.goto, Machine.emit]
  · simp [Machine.goto, Machine.emit, Machine.setState, h]
  · split <;> simp [Machine.goto, Machine.emit, Machine.setState, h]
  · simp [Machine.goto]
  · rfl

/-- What one step of a goroutine does to the state of its record and to its own
place. -/
theorem stepAt_effect (sh : Shell) (p i : Nat) (m : Machine) :
    (((stepAt sh p i m).heap p).state = (m.heap p).state ∧ m.pcs i ≠ Pc.inRun
        ∧ ((m.heap p).state = notStarted → (m.pcs i).beforeWrite = true →
            ((stepAt sh p i m).pcs i).beforeWrite = true))
      ∨ (((stepAt sh p i m).heap p).state = starting ∧ (stepAt sh p i m).pcs i = Pc.inRun)
      ∨ ((stepAt sh p i m).heap p).state = started
      ∨ ((stepAt sh p i m).heap p).state = errored := by
  unfold stepAt
  split
  next sat tries hpc =>
    left
    split <;> simp [Machine.goto, hpc, Pc.beforeWrite]
  next hpc =>
    left
    split
    · simp [Machine.goto, hpc, Pc.beforeWrite]
    · next hne => simp [Machine.goto, hpc, hne]
  next hpc =>
    left
    split
    · next hne => simp [Machine.goto, Machine.emit, hpc, hne]
    · simp [Machine.goto, hpc, Pc.beforeWrite]
  next hpc =>
    right; left
    simp [Machine.goto, Machine.emit, Machine.setState]
  next hpc =>
    right; right
    split
    · right; simp [Machine.goto, Machine.emit, Machine.setState]
    · left; simp [Machine.goto, Machine.emit, Machine.setState]
  next hpc =>
    left
    simp [Machine.goto, hpc, Pc.beforeWrite]
  next hpc =>
    left
    simp [hpc, Pc.beforeWrite]

theorem starting_ne_notStarted : starting ≠ notStarted := by decide

theorem stepAt_recordInv (sh : Shell) (ptrs : List Nat) (p q i : Nat) (m : Machine)
    (hi : ptrs.get? i = some q) (inv : recordInv ptrs p m) :
    recordInv ptrs p (stepAt sh q i m) := by
  obtain ⟨h1, h2, h3⟩ := inv
  by_cases hq : q = p
  · subst hq
    have hother : ∀ j, j ≠ i → (stepAt sh q i m).pcs j = m.pcs j :=
      fun j hj => stepAt_pcs_other sh q i j m hj
    rcases stepAt_effect sh q i m with ⟨hs, hrun, hbw⟩ | ⟨hs, hpc⟩ | hs | hs
    · refine ⟨by rw [hs]; exact h1, ?_, ?_⟩
      · intro hns j hj
        rw [hs] at hns
        by_cases hji : j = i
        · rw [hji]
          exact hbw hns (h2 hns i hi)
        · rw [hother j hji]
          exact h2 hns j hj
      · intro hst
        rw [hs] at hst
        obtain ⟨j, hj, hpc⟩ := h3 hst
        have hji : j ≠ i := by
          intro hji
          rw [hji] at hpc
          exact hrun hpc
        exact ⟨j, hj, by rw [hother j hji]; exact hpc⟩
    · refine ⟨Or.inr (Or.inl hs), ?_, ?_⟩
      · intro hns
        rw [hs] at hns
        exact absurd hns starting_ne_notStarted
      · intro _
        exact ⟨i, hi, hpc⟩
    · refine ⟨Or.inr (Or.inr (Or.inl hs)), ?_, ?_⟩
      · intro hns
        rw [hs] at hns
        exact absurd hns started_ne_notStarted
      · intro hst
        rw [hs] at hst
        exact absurd hst (by decide)
    · refine ⟨Or.inr (Or.inr (Or.inr hs)), ?_, ?_⟩
      · intro hns
        rw [hs] at hns
        exact absurd hns errored_ne_notStarted
      · intro hst
        rw [hs] at hst
        exact absurd hst (by decide)
  · have hheap : (stepAt sh q i m).heap p = m.heap p :=
      stepAt_heap_other sh q i p m (fun h => hq h.symm)
    have hpcs : ∀ j, ptrs.get? j = some p → (stepAt sh q i m).pcs j = m.pcs j := by
      intro j hj
      apply stepAt_pcs_other
      intro hji
      rw [hji, hi] at hj
      exact hq (Option.some.inj hj)
    refine ⟨by rw [hheap]; exact h1, ?_, ?_⟩
    · intro hns j hj
      rw [hheap] at hns
      rw [hpcs j hj]
      exact h2 hns j hj
    · intro hst
      rw [hheap] at hst
      obtain ⟨j, hj, hpc⟩ := h3 hst
      exact ⟨j, hj, by rw [hpcs j hj]; exact hpc⟩

theorem step_recordInv (sh : Shell) (ptrs : List Nat) (p i : Nat) (m : Machine)
    (inv : recordInv ptrs p m) : recordInv ptrs p (step sh ptrs i m) := by
  unfold step
  cases hi : ptrs.get? i with
  | none => exact inv
  | some q => exact stepAt_recordInv sh ptrs p q i m hi inv

theorem runSchedule_recordInv (sh : Shell) (ptrs : List Nat) (p : Nat) (schedule : List Nat) :
    ∀ m : Machine, recordInv ptrs p m → recordInv ptrs p (runSchedule sh ptrs schedule m) := by
  induction schedule with
  | nil => intro m inv; exact inv
  | cons i rest ih =>
    intro m inv
    exact ih _ (step_recordInv sh ptrs p i m inv)

theorem initialMachine_recordInv (services : List (ServiceType × List Nat))
    (heap : Nat → Service) (ptrs : List Nat) (p : Nat) (hp : (heap p).state = notStarted) :
    recordInv ptrs p (initialMachine services heap) := by
  refine ⟨Or.inl hp, fun _ _ _ => rfl, ?_⟩
  intro hst
  have : (heap p).state = starting := hst
  rw [hp] at this
  exact absurd this.symm starting_ne_notStarted

theorem stepAt_only_state (sh : Shell) (q i p : Nat) (m : Machine) :
    ({ (stepAt sh q i m).heap p with state := (m.heap p).state } : Service) = m.heap p := by
  unfold stepAt
  split
  · split <;> simp [Machine.goto]
  · split <;> simp [Machine.goto]
  · split <;> simp [Machine.goto, Machine.emit]
  · by_cases h : p = q <;> simp [Machine.goto, Machine.emit, Machine.setState, h]
  · split <;> by_cases h : p = q <;> simp [Machine.goto, Machine.emit, Machine.setState, h]
  · simp [Machine.goto]
  · rfl

theorem stepAt_tr_mono (sh : Shell) (q i : Nat) (m : Machine) (e : Event) (h : e ∈ m.tr) :
    e ∈ (stepAt sh q i m).tr := by
  unfold stepAt
  split
  · split <;> simp [Machine.goto, Service.NeedsSatisfied, h]
  · split <;> simp [Machine.goto, h]
  · split <;> simp [Machine.goto, Machine.emit, h]
  · simp [Machine.goto, Machine.emit, Machine.setState, h]
  · split <;> simp [Machine.goto, Machine.emit, Machine.setState, h]
  · simp [Machine.goto, h]
  · exact h

/-- A step leaves the state of a record, or makes it `starting`, or has run the
start-up command of the record. -/
theorem stepAt_ran (sh : Shell) (q i p : Nat) (m : Machine) :
    ((stepAt sh q i m).heap p).state = (m.heap p).state
      ∨ ((stepAt sh q i m).heap p).state = starting
      ∨ Event.run ["/usr/bin/sh", "-c", Command.String (m.heap p).Startup]
          ∈ (stepAt sh q i m).tr := by
  by_cases hq : p = q
  · subst hq
    unfold stepAt
    split
    · left; split <;> simp [Machine.goto]
    · left; split <;> simp [Machine.goto]
    · left; split <;> simp [Machine.goto, Machine.emit]
    · right; left; simp [Machine.goto, Machine.emit, Machine.setState]
    · right; right; split <;> simp [Machine.goto, Machine.emit, Machine.setState]
    · left; simp [Machine.goto]
    · left; rfl
  · left
    rw [stepAt_heap_other sh q i p m hq]

theorem stepAt_ranInv (sh : Shell) (heap : Nat → Service) (p q i : Nat)
    (m : Machine) (inv : ranInv heap p m) : ranInv heap p (stepAt sh q i m) := by
  obtain ⟨h1, h2⟩ := inv
  have hs := stepAt_only_state sh q i p m
  have hfield : ({ (stepAt sh q i m).heap p with state := (heap p).state } : Service) = heap p := by
    rw [← h1, ← hs]
  have hstartup : (m.heap p).Startup = (heap p).Startup := by
    rw [← h1]
  refine ⟨hfield, ?_⟩
  intro hterm
  rcases stepAt_ran sh q i p m with hsame | hst | hrun
  · rw [hsame] at hterm
    exact stepAt_tr_mono sh q i m _ (h2 hterm)
  · rw [hst] at hterm
    rcases hterm with h | h
    · exact absurd h (by decide)
    · exact absurd h (by decide)
  · rw [hstartup] at hrun
    exact hrun

theorem runSchedule_ranInv (sh : Shell) (ptrs : List Nat) (heap : Nat → Service) (p : Nat)
    (schedule : List Nat) :
    ∀ m : Machine, ranInv heap p m → ranInv heap p (runSchedule sh ptrs schedule m) := by
  induction schedule with
  | nil => intro m inv; exact inv
  | cons i rest ih =>
    intro m inv
    apply ih
    unfold step
    cases ptrs.get? i with
    | none => exact inv
    | some q => exact stepAt_ranInv sh heap p q i m inv

theorem initialMachine_ranInv (services : List (ServiceType × List Nat))
    (heap : Nat → Service) (p : Nat) (hp : (heap p).state = notStarted) :
    ranInv heap p (initialMachine services heap) := by
  refine ⟨rfl, ?_⟩
  intro hterm
  have h : (heap p).state = started ∨ (heap p).state = errored := hterm
  rw [hp] at h
  rcases h with h | h
  · exact absurd h.symm started_ne_notStarted
  · exact absurd h.symm errored_ne_notStarted

/-! ### The wait group -/

theorem get?_lt (ptrs : List Nat) (i p : Nat) (h : ptrs.get? i = some p) : i < ptrs.length := by
  by_contra hc
  rw [List.get?_eq_none.2 (by omega)] at h
  cases h

theorem pending_keep (pcs pcs2 : Nat → Pc) (i : Nat) (hother : ∀ j, j ≠ i → pcs2 j = pcs j)
    (hold : pcs i ≠ Pc.done) (hnew : pcs2 i ≠ Pc.done) (n : Nat) :
    pending pcs2 n = pending pcs n := by
  induction n with
  | zero => rfl
  | succ n ih =>
    by_cases hn : n = i
    · subst hn
      simp [pending, ih, hold, hnew]
    · simp [pending, ih, hother n hn]

theorem pending_done (pcs pcs2 : Nat → Pc) (i : Nat) (hother : ∀ j, j ≠ i → pcs2 j = pcs j)
    (hold : pcs i ≠ Pc.done) (hnew : pcs2 i = Pc.done) (n : Nat) :
    pending pcs2 n + (if i < n then 1 else 0) = pending pcs n := by
  induction n with
  | zero => rfl
  | succ n ih =>
    by_cases hn : n = i
    · subst hn
      have : ¬ n < n := by omega
      simp [this] at ih
      simp [pending, ih, hold, hnew]
    · by_cases hlt : i < n
      · have h2 : i < n + 1 := by omega
        simp [hlt] at ih
        simp [pending, h2, hother n hn]
        omega
      · have h2 : ¬ i < n + 1 := by omega
        simp [hlt] at ih
        simp [pending, h2, hother n hn, ih]

theorem pending_zero (pcs : Nat → Pc) (n : Nat) :
    pending pcs n = 0 ↔ ∀ j, j < n → pcs j = Pc.done := by
  induction n with
  | zero => simp [pending]
  | succ n ih =>
    constructor
    · intro h j hj
      have h1 : pending pcs n = 0 := by
        simp [pending] at h
        exact h.1
      have h2 : pcs n = Pc.done := by
        simp [pending] at h
        exact h.2
      by_cases hjn : j = n
      · rw [hjn]; exact h2
      · exact ih.1 h1 j (by omega)
    · intro h
      simp [pending, ih.2 (fun j hj => h j (by omega)), h n (by omega)]

theorem pending_initial (n : Nat) : pending (fun _ => Pc.loop false 0) n = n := by
  induction n with
  | zero => rfl
  | succ n ih => simp [pending, ih]

theorem wgAdds_eq (services : List (ServiceType × List Nat)) :
    wgAdds services = ((launched services).length : Nat) := by
  induction services with
  | nil => rfl
  | cons g rest ih =>
    obtain ⟨t, group⟩ := g
    simp [wgAdds, launched, ih]

/-- What one step of a goroutine does to the counter and to its own place. -/
theorem stepAt_wg (sh : Shell) (p i : Nat) (m : Machine) :
    (m.pcs i ≠ Pc.done ∧ (stepAt sh p i m).pcs i = Pc.done ∧ (stepAt sh p i m).wg = m.wg - 1)
      ∨ (m.pcs i ≠ Pc.done ∧ (stepAt sh p i m).pcs i ≠ Pc.done ∧ (stepAt sh p i m).wg = m.wg)
      ∨ (m.pcs i = Pc.done ∧ stepAt sh p i m = m) := by
  unfold stepAt
  split
  next sat tries hpc => right; left; split <;> simp [Machine.goto, hpc]
  next hpc => right; left; split <;> simp [Machine.goto, hpc]
  next hpc => right; left; split <;> simp [Machine.goto, Machine.emit, hpc]
  next hpc => right; left; simp [Machine.goto, Machine.emit, Machine.setState, hpc]
  next hpc => right; left; split <;> simp [Machine.goto, Machine.emit, Machine.setState, hpc]
  next hpc => left; simp [Machine.goto, hpc]
  next hpc => right; right; exact ⟨hpc, rfl⟩

theorem step_wgInv (sh : Shell) (ptrs : List Nat) (i : Nat) (m : Machine)
    (inv : wgInv ptrs m) : wgInv ptrs (step sh ptrs i m) := by
  unfold step
  cases hi : ptrs.get? i with
  | none => exact inv
  | some p =>
    have hlt := get?_lt ptrs i p hi
    have hother : ∀ j, j ≠ i → (stepAt sh p i m).pcs j = m.pcs j :=
      fun j hj => stepAt_pcs_other sh p i j m hj
    unfold wgInv at inv ⊢
    rcases stepAt_wg sh p i m with ⟨hold, hnew, hwg⟩ | ⟨hold, hnew, hwg⟩ | ⟨_, hsame⟩
    · have := pending_done m.pcs (stepAt sh p i m).pcs i hother hold hnew ptrs.length
      simp [hlt] at this
      simp only []
      rw [hwg, inv, ← this]
      push_cast
      ring
    · have := pending_keep m.pcs (stepAt sh p i m).pcs i hother hold hnew ptrs.length
      simp only []
      rw [hwg, inv, this]
    · simp only []
      rw [hsame]
      exact inv

theorem runSchedule_wgInv (sh : Shell) (ptrs : List Nat) (schedule : List Nat) :
    ∀ m : Machine, wgInv ptrs m → wgInv ptrs (runSchedule sh ptrs schedule m) := by
  induction schedule with
  | nil => intro m inv; exact inv
  | cons i rest ih =>
    intro m inv
    exact ih _ (step_wgInv sh ptrs i m inv)

theorem initialMachine_wgInv (services : List (ServiceType × List Nat)) (heap : Nat → Service) :
    wgInv (launched services) (initialMachine services heap) := by
  unfold wgInv initialMachine
  simp only []
  rw [pending_initial, wgAdds_eq]

/-! ### Every goroutine ends -/

theorem stepsLeft_zero (pc : Pc) (h : stepsLeft pc = 0) : pc = Pc.done := by
  cases pc <;> simp [stepsLeft] at h ⊢

theorem stepAt_stepsLeft (sh : Shell) (p i : Nat) (m : Machine) :
    stepsLeft ((stepAt sh p i m).pcs i) ≤ stepsLeft (m.pcs i) - 1 := by
  unfold stepAt
  split
  next sat tries hpc =>
    split
    next hc =>
      have : tries < 60 := by
        simp at hc
        exact hc.2
      simp [Machine.goto, hpc, stepsLeft]
      omega
    next hc =>
      simp [Machine.goto, hpc, stepsLeft]
  next hpc => split <;> simp [Machine.goto, hpc, stepsLeft]
  next hpc => split <;> simp [Machine.goto, Machine.emit, hpc, stepsLeft]
  next hpc => simp [Machine.goto, Machine.emit, Machine.setState, hpc, stepsLeft]
  next hpc => split <;> simp [Machine.goto, Machine.emit, Machine.setState, hpc, stepsLeft]
  next hpc => simp [Machine.goto, hpc, stepsLeft]
  next hpc => simp [hpc, stepsLeft]

theorem runSchedule_stepsLeft (sh : Shell) (ptrs : List Nat) (j : Nat) (hj : j < ptrs.length)
    (schedule : List Nat) :
    ∀ m : Machine, stepsLeft ((runSchedule sh ptrs schedule m).pcs j)
      ≤ stepsLeft (m.pcs j) - schedule.count j := by
  induction schedule with
  | nil => intro m; simp [runSchedule]
  | cons i rest ih =>
    intro m
    have hrec := ih (step sh ptrs i m)
    simp only [runSchedule]
    rw [List.count_cons]
    by_cases hij : i = j
    · subst hij
      have hstep : stepsLeft ((step sh ptrs i m).pcs i) ≤ stepsLeft (m.pcs i) - 1 := by
        unfold step
        rw [List.get?_eq_get hj]
        exact stepAt_stepsLeft sh _ i m
      simp
      omega
    · have hsame : (step sh ptrs i m).pcs j = m.pcs j := by
        unfold step
        cases ptrs.get? i with
        | none => rfl
        | some p => exact stepAt_pcs_other sh p i j m (fun h => hij h.symm)
      rw [hsame] at hrec
      simp [hij]
      exact hrec

/-! ### A goroutine on its own -/

theorem runSchedule_append (sh : Shell) (ptrs : List Nat) (a b : List Nat) :
    ∀ m : Machine, runSchedule sh ptrs (a ++ b) m
      = runSchedule sh ptrs b (runSchedule sh ptrs a m) := by
  induction a with
  | nil => intro m; rfl
  | cons i rest ih => intro m; simp [runSchedule, ih]

theorem step_eq_stepAt (sh : Shell) (ptrs : List Nat) (i p : Nat) (m : Machine)
    (hi : ptrs.get? i = some p) : step sh ptrs i m = stepAt sh p i m := by
  unfold step
  rw [hi]

theorem stepAt_loop_go (sh : Shell) (p i : Nat) (m : Machine) (sat : Bool) (tries : Nat)
    (hpc : m.pcs i = Pc.loop sat tries) (hc : (sat == false && decide (tries < 60)) = true) :
    stepAt sh p i m
      = ({ m with tr := m.tr ++ pollEvents }).goto i
          (Pc.loop (needsLoop m.startedTypes (m.heap p).Needs) (tries + 1)) := by
  unfold stepAt
  rw [hpc]
  simp only []
  rw [if_pos hc, NeedsSatisfied_eq]
  simp only [pollEvents, List.append_assoc, List.cons_append, List.nil_append]

theorem stepAt_loop_exit (sh : Shell) (p i : Nat) (m : Machine) (sat : Bool) (tries : Nat)
    (hpc : m.pcs i = Pc.loop sat tries) (hc : ¬ (sat == false && decide (tries < 60)) = true) :
    stepAt sh p i m = m.goto i Pc.guard := by
  unfold stepAt
  rw [hpc]
  exact if_neg hc

/-- A goroutine that takes its steps in a row goes through its readiness loop as
`readinessLoop` does, the map being what it is at the first step. -/
theorem solo_loop (sh : Shell) (ptrs : List Nat) (i p : Nat) (hi : ptrs.get? i = some p)
    (fuel : Nat) :
    ∀ (sat : Bool) (tries : Nat) (m : Machine), m.pcs i = Pc.loop sat tries →
      ∀ r, readinessLoop (m.heap p) (fun _ => m.startedTypes) fuel sat tries m.tr = some r →
        ∃ k, (runSchedule sh ptrs (List.replicate k i) m).pcs i = Pc.guard
          ∧ (runSchedule sh ptrs (List.replicate k i) m).heap = m.heap
          ∧ (runSchedule sh ptrs (List.replicate k i) m).startedTypes = m.startedTypes
          ∧ (runSchedule sh ptrs (List.replicate k i) m).tr = r.2.2 := by
  have hexit : ∀ (sat : Bool) (tries : Nat) (m : Machine), m.pcs i = Pc.loop sat tries →
      ¬ (sat == false && decide (tries < 60)) = true →
      (runSchedule sh ptrs (List.replicate 1 i) m).pcs i = Pc.guard
        ∧ (runSchedule sh ptrs (List.replicate 1 i) m).heap = m.heap
        ∧ (runSchedule sh ptrs (List.replicate 1 i) m).startedTypes = m.startedTypes
        ∧ (runSchedule sh ptrs (List.replicate 1 i) m).tr = m.tr := by
    intro sat tries m hpc hc
    simp only [List.replicate, runSchedule, step_eq_stepAt sh ptrs i p m hi,
      stepAt_loop_exit sh p i m sat tries hpc hc]
    simp [Machine.goto]
  induction fuel with
  | zero =>
    intro sat tries m hpc r hr
    by_cases hc : (sat == false && decide (tries < 60)) = true
    · rw [readinessLoop, if_pos hc] at hr
      cases hr
    · rw [readinessLoop, if_neg hc] at hr
      have hr2 := Option.some.inj hr
      subst hr2
      exact ⟨1, hexit sat tries m hpc hc⟩
  | succ fuel ih =>
    intro sat tries m hpc r hr
    by_cases hc : (sat == false && decide (tries < 60)) = true
    · rw [readinessLoop, if_pos hc] at hr
      have hstep := stepAt_loop_go sh p i m sat tries hpc hc
      obtain ⟨k, h1, h2, h3, h4⟩ := ih (needsLoop m.startedTypes (m.heap p).Needs) (tries + 1)
        (stepAt sh p i m) (by rw [hstep]; simp [Machine.goto]) r
        (by
          rw [hstep]
          simpa [Machine.goto, NeedsSatisfied_eq, pollEvents] using hr)
      refine ⟨k + 1, ?_⟩
      simp only [List.replicate, runSchedule, step_eq_stepAt sh ptrs i p m hi]
      refine ⟨h1, ?_, ?_, h4⟩
      · rw [h2, hstep]; rfl
      · rw [h3, hstep]; rfl
    · rw [readinessLoop, if_neg hc] at hr
      have hr2 := Option.some.inj hr
      subst hr2
      exact ⟨1, hexit sat tries m hpc hc⟩

/-- From the test of line 67 on, a goroutine that takes its steps in a row does
the start step and the publishing step. -/
theorem solo_tail (sh : Shell) (ptrs : List Nat) (i p : Nat) (hi : ptrs.get? i = some p)
    (m : Machine) (hpc : m.pcs i = Pc.guard) :
    ∃ k, (runSchedule sh ptrs (List.replicate k i) m).pcs i = Pc.done
      ∧ ((runSchedule sh ptrs (List.replicate k i) m).heap p,
          (runSchedule sh ptrs (List.replicate k i) m).startedTypes,
          (runSchedule sh ptrs (List.replicate k i) m).tr)
        = publishStep m.startedTypes (startStep (m.heap p) sh m.tr) := by
  by_cases hs : (m.heap p).state = notStarted
  · cases hrun : sh (m.tr ++ [Event.stdout ("Starting service " ++ (m.heap p).Name)])
        ["/usr/bin/sh", "-c", Command.String (m.heap p).Startup] with
    | none =>
      refine ⟨5, ?_⟩
      rw [startStep_notStarted _ _ _ hs, Start_success _ _ _ hs hrun]
      simp only [List.replicate, runSchedule, step_eq_stepAt sh ptrs i p _ hi]
      simp [stepAt, hpc, hs, hrun, Machine.goto, Machine.emit, Machine.setState, publishStep,
        logErr]
    | some e =>
      refine ⟨5, ?_⟩
      rw [startStep_notStarted _ _ _ hs, Start_failure _ _ _ e hs hrun]
      simp only [List.replicate, runSchedule, step_eq_stepAt sh ptrs i p _ hi]
      simp [stepAt, hpc, hs, hrun, Machine.goto, Machine.emit, Machine.setState, publishStep,
        logErr]
  · refine ⟨2, ?_⟩
    rw [startStep_other _ _ _ hs]
    simp only [List.replicate, runSchedule, step_eq_stepAt sh ptrs i p _ hi]
    simp [stepAt, hpc, hs, Machine.goto, publishStep]

/-- A goroutine that takes all its steps in a row does what `launchAttempt` does
on the record and the map as they are at its first step. -/
theorem solo_is_launchAttempt (sh : Shell) (ptrs : List Nat) (i p : Nat)
    (hi : ptrs.get? i = some p) (m : Machine) (hpc : m.pcs i = Pc.loop false 0) :
    ∃ k, (runSchedule sh ptrs (List.replicate k i) m).pcs i = Pc.done
      ∧ launchAttempt (m.heap p)
          { polls := fun _ => m.startedTypes, atPublish := m.startedTypes, sh := sh } m.tr
        = some ((runSchedule sh ptrs (List.replicate k i) m).heap p,
            (runSchedule sh ptrs (List.replicate k i) m).startedTypes,
            (runSchedule sh ptrs (List.replicate k i) m).tr) := by
  obtain ⟨n, sat, hloop, hatt, _⟩ := launchAttempt_run (m.heap p)
    { polls := fun _ => m.startedTypes, atPublish := m.startedTypes, sh := sh } m.tr
  obtain ⟨k1, h1, h2, h3, h4⟩ := solo_loop sh ptrs i p hi 60 false 0 m hpc _ hloop
  obtain ⟨k2, h5, h6⟩ := solo_tail sh ptrs i p hi _ h1
  refine ⟨k1 + k2, ?_⟩
  rw [List.replicate_add, runSchedule_append]
  refine ⟨h5, ?_⟩
  rw [hatt, h6, h2, h3, h4]

/-! ## Claims on `Start` and `NeedsSatisfied` -/

/-- C1: when the state is anything but `notStarted` (any of the other 255 values
of the `uint8`), `Start()` returns a non-nil error whose text names the state,
the service (its state included) is exactly as before, and no event happens: in
particular the start-up command is not run. -/
theorem Start_rejects_other_states (s : Service) (sh : Shell) (tr : Trace)
    (h : s.state ≠ notStarted) :
    (s.Start sh tr).2.1 = some ("Service " ++ s.Name ++ " is " ++ s.state.String)
      ∧ (s.Start sh tr).2.1 ≠ none
      ∧ (s.Start sh tr).1 = s
      ∧ (s.Start sh tr).1.state = s.state
      ∧ (s.Start sh tr).2.2 = tr
      ∧ runCount (s.Start sh tr).2.2 = runCount tr := by
  rw [Start_blocked s sh tr h]
  simp

theorem Start_rejects_other_states_witness :
    ({ svcNet with state := stopped } : Service).state ≠ notStarted
      ∧ (({ svcNet with state := stopped } : Service).Start shOk []).2.1
          = some "Service net is stopped"
      ∧ (({ svcNet with state := ⟨200⟩ } : Service).Start shOk []).2.1
          = some "Service net is in an invalid state" :=
  ⟨by decide,
   (Start_rejects_other_states { svcNet with state := stopped } shOk [] (by decide)).1.trans
     (by decide),
   (Start_rejects_other_states { svcNet with state := ⟨200⟩ } shOk [] (by decide)).1.trans
     (by decide)⟩

/-- C2: from `notStarted`, `Start()` runs the start-up command exactly once
(`/usr/bin/sh -c <Startup>`); when the command succeeds the result is nil and
the state is `started`; when it fails with `e` the result is exactly `e` and the
state is `errored`; the state after the call is one of these two. -/
theorem Start_from_notStarted (s : Service) (sh : Shell) (tr : Trace)
    (h : s.state = notStarted) :
    runCount (s.Start sh tr).2.2 = runCount tr + 1
      ∧ (sh (tr ++ [Event.stdout ("Starting service " ++ s.Name)])
            ["/usr/bin/sh", "-c", Command.String s.Startup] = none →
          s.Start sh tr = ({ s with state := started }, none,
            tr ++ [Event.stdout ("Starting service " ++ s.Name)]
              ++ [Event.run ["/usr/bin/sh", "-c", Command.String s.Startup]]
              ++ [Event.stdout ("Started service " ++ s.Name)]))
      ∧ (∀ e : Error, sh (tr ++ [Event.stdout ("Starting service " ++ s.Name)])
            ["/usr/bin/sh", "-c", Command.String s.Startup] = some e →
          s.Start sh tr = ({ s with state := errored }, some e,
            tr ++ [Event.stdout ("Starting service " ++ s.Name)]
              ++ [Event.run ["/usr/bin/sh", "-c", Command.String s.Startup]]))
      ∧ ((s.Start sh tr).1.state = started ∨ (s.Start sh tr).1.state = errored) :=
  ⟨Start_runCount s sh tr h, Start_success s sh tr h,
   fun e => Start_failure s sh tr e h, Start_state s sh tr h⟩

theorem Start_from_notStarted_witness :
    svcNet.state = notStarted
      ∧ runCount (svcNet.Start shFail []).2.2 = 1
      ∧ svcNet.Start shFail [] = ({ svcNet with state := errored }, some "exit status 1",
          [Event.stdout "Starting service net",
           Event.run ["/usr/bin/sh", "-c", "ip link set lo up"]]) :=
  ⟨rfl, (Start_from_notStarted svcNet shFail [] rfl).1,
   (Start_from_notStarted svcNet shFail [] rfl).2.2.1 "exit status 1" rfl⟩

/-- C3: `NeedsSatisfied` returns true exactly when every element of `Needs` is
bound to `true` in the map (an absent key and a key bound to `false` both
count as not present); it returns true for an empty `Needs`; the map is the
same after the call, and the only events are the read lock and its release.
The receiver is a copy of the service, so the service is not changed either. -/
theorem NeedsSatisfied_iff_all_present (s : Service) (m : Registry) (tr : Trace) :
    ((s.NeedsSatisfied m tr).1 = true ↔ ∀ t ∈ s.Needs, m t = some true)
      ∧ ((s.NeedsSatisfied m tr).1 = true ↔ ∀ t ∈ s.Needs, m.index t = true)
      ∧ (s.Needs = [] → (s.NeedsSatisfied m tr).1 = true)
      ∧ (s.NeedsSatisfied m tr).2.1 = m
      ∧ (s.NeedsSatisfied m tr).2.2 = tr ++ [Event.rlock, Event.runlock] := by
  rw [NeedsSatisfied_eq]
  refine ⟨needsLoop_iff m s.Needs, ?_, ?_, rfl, rfl⟩
  · rw [needsLoop_iff]
    exact forall_congr' fun t => imp_congr_right fun _ => (index_eq_true m t).symm
  · intro h
    simp [h, needsLoop]

/-- C4: from `notStarted`, any number `n + 1` of calls of `Start()` in a row runs
the start-up command exactly once, in the first call; the first call leaves
`started` or `errored`; each of the `n` later calls returns the error
`Service <name> is already started` or `Service <name> is errored`, leaves the
service as the first call left it and adds no event. -/
theorem Start_repeated_runs_once (s : Service) (sh : Shell) (tr : Trace) (n : Nat)
    (h : s.state = notStarted) :
    ((s.Start sh tr).1.state = started ∨ (s.Start sh tr).1.state = errored)
      ∧ startTimes sh (n + 1) s tr
          = ((s.Start sh tr).1,
             (s.Start sh tr).2.1 :: List.replicate n
               (some ("Service " ++ s.Name ++ " is " ++ (s.Start sh tr).1.state.String)),
             (s.Start sh tr).2.2)
      ∧ runCount (startTimes sh (n + 1) s tr).2.2 = runCount tr + 1
      ∧ (s.Start sh tr).1.Start sh (s.Start sh tr).2.2
          = ((s.Start sh tr).1,
             some ("Service " ++ s.Name ++ " is " ++ (s.Start sh tr).1.state.String),
             (s.Start sh tr).2.2)
      ∧ ((s.Start sh tr).1.state = started →
          (s.Start sh tr).1.state.String = "already started")
      ∧ ((s.Start sh tr).1.state = errored → (s.Start sh tr).1.state.String = "errored") := by
  have hst := Start_state s sh tr h
  have hne : (s.Start sh tr).1.state ≠ notStarted := by
    rcases hst with h1 | h1 <;> rw [h1] <;> decide
  have hname := (Start_fields s sh tr).1
  have hseq : startTimes sh (n + 1) s tr
      = ((s.Start sh tr).1,
         (s.Start sh tr).2.1 :: List.replicate n
           (some ("Service " ++ s.Name ++ " is " ++ (s.Start sh tr).1.state.String)),
         (s.Start sh tr).2.2) := by
    simp only [startTimes]
    rw [startTimes_blocked sh n _ _ hne, hname]
  refine ⟨hst, hseq, ?_, ?_, ?_, ?_⟩
  · rw [hseq]
    exact Start_runCount s sh tr h
  · rw [Start_blocked _ sh _ hne, hname]
  · intro h1; rw [h1]; exact String_started
  · intro h1; rw [h1]; exact String_errored

theorem Start_repeated_runs_once_witness :
    svcNet.state = notStarted
      ∧ startTimes shOk 3 svcNet []
          = ({ svcNet with state := started },
             [none, some "Service net is already started", some "Service net is already started"],
             [Event.stdout "Starting service net",
              Event.run ["/usr/bin/sh", "-c", "ip link set lo up"],
              Event.stdout "Started service net"]) :=
  ⟨rfl, (Start_repeated_runs_once svcNet shOk [] 2 rfl).2.1.trans (by decide)⟩

/-! ## Claims on the goroutine of `StartServices` -/

/-- C5, as stated, fails: for the service `net` with no needs the readiness loop
polls once and sleeps 2 seconds before `Start()` prints `Starting service net`. -/
theorem empty_needs_sleeps_before_Start :
    svcNet.Needs = [] ∧ svcNet.state = notStarted
      ∧ readinessLoop svcNet envNothing.polls 60 false 0 []
          = some (true, 1, [Event.rlock, Event.runlock, Event.sleep 2])
      ∧ sleepTotal [Event.rlock, Event.runlock, Event.sleep 2] = 2
      ∧ (launchAttempt svcNet envNothing []).map (fun r => r.2.2)
          = some [Event.rlock, Event.runlock, Event.sleep 2,
              Event.stdout "Starting service net",
              Event.run ["/usr/bin/sh", "-c", "ip link set lo up"],
              Event.stdout "Started service net",
              Event.lock, Event.unlock, Event.wgDone] := by
  refine ⟨rfl, rfl, ?_, ?_, ?_⟩ <;> decide

/-- C5, amended: with an empty `Needs` the readiness loop makes exactly one
poll, which is satisfied, and sleeps once for 2 seconds; the goroutine then goes
on to the start step, which calls `Start()` when the state is `notStarted`. -/
theorem empty_needs_one_poll_one_sleep (s : Service) (env : Env) (tr : Trace)
    (h : s.Needs = []) :
    readinessLoop s env.polls 60 false 0 tr
        = some (true, 1, tr ++ [Event.rlock, Event.runlock, Event.sleep 2])
      ∧ pollCount (tr ++ [Event.rlock, Event.runlock, Event.sleep 2]) = pollCount tr + 1
      ∧ sleepTotal (tr ++ [Event.rlock, Event.runlock, Event.sleep 2]) = sleepTotal tr + 2
      ∧ launchAttempt s env tr = some (publishStep env.atPublish
          (startStep s env.sh (tr ++ [Event.rlock, Event.runlock, Event.sleep 2])))
      ∧ (s.state = notStarted →
          launchAttempt s env tr = some (publishStep env.atPublish
            (logErr (s.Start env.sh (tr ++ [Event.rlock, Event.runlock, Event.sleep 2]))))) := by
  have hp : pollResult s env.polls 0 = true := by
    rw [pollResult_eq, h]
    rfl
  have hloop : readinessLoop s env.polls 60 false 0 tr
      = some (true, 1, tr ++ [Event.rlock, Event.runlock, Event.sleep 2]) := by
    rw [readinessLoop_step s env.polls 59 0 tr (by omega), hp, readinessLoop_satisfied]
    rfl
  have hatt : launchAttempt s env tr = some (publishStep env.atPublish
      (startStep s env.sh (tr ++ [Event.rlock, Event.runlock, Event.sleep 2]))) := by
    simp [launchAttempt, hloop]
  refine ⟨hloop, ?_, ?_, hatt, ?_⟩
  · simp [pollCount_append, pollCount]
  · simp [sleepTotal_append, sleepTotal]
  · intro hs
    rw [hatt, startStep_notStarted s env.sh _ hs]

theorem empty_needs_one_poll_one_sleep_witness :
    svcNet.Needs = []
      ∧ readinessLoop svcNet envNothing.polls 60 false 0 []
          = some (true, 1, [] ++ [Event.rlock, Event.runlock, Event.sleep 2]) :=
  ⟨rfl, (empty_needs_one_poll_one_sleep svcNet envNothing [] rfl).1⟩

/-- C6, as stated, fails: the service `db` needs `net`, which no poll ever finds
in the map; after the 60 polls the goroutine runs the start-up command once and,
the command succeeding, the service ends in `started`. -/
theorem missing_provider_still_starts :
    "net" ∈ svcDb.Needs ∧ (∀ i, envNothing.polls i "net" = none)
      ∧ ∃ r, launchAttempt svcDb envNothing [] = some r
          ∧ r.1.state = started ∧ r.1.state ≠ errored ∧ runCount r.2.2 = 1 := by
  refine ⟨by decide, fun _ => rfl, _,
    (launchAttempt_missing svcDb envNothing [] "net" rfl (by decide) (fun _ _ => rfl)).2, ?_⟩
  have hok : svcDb.Start envNothing.sh ([] ++ pollTrace 60)
      = ({ svcDb with state := started }, none,
          ([] ++ pollTrace 60) ++ [Event.stdout ("Starting service " ++ svcDb.Name)]
            ++ [Event.run ["/usr/bin/sh", "-c", Command.String svcDb.Startup]]
            ++ [Event.stdout ("Started service " ++ svcDb.Name)]) :=
    Start_success svcDb envNothing.sh _ rfl rfl
  refine ⟨?_, ?_, ?_⟩
  · rw [hok]; rfl
  · rw [hok]; decide
  · rw [publishStep_runCount, logErr_runCount, Start_runCount svcDb _ _ rfl]
    simp [runCount_append, runCount_pollTrace, runCount]

/-- C6, amended: for a service in `notStarted` that needs a capability which none
of its 60 polls finds in the map, the readiness loop makes 60 polls and the
goroutine then calls `Start()`: the start-up command is run exactly once, and
the service ends in `started` when the command succeeds and in `errored` when
it fails. -/
theorem missing_provider_starts_after_budget (s : Service) (env : Env) (tr : Trace)
    (x : ServiceType) (hs : s.state = notStarted) (hx : x ∈ s.Needs)
    (hmiss : ∀ i, i < 60 → (env.polls i).index x = false) :
    readinessLoop s env.polls 60 false 0 tr = some (false, 60, tr ++ pollTrace 60)
      ∧ pollCount (tr ++ pollTrace 60) = pollCount tr + 60
      ∧ ∃ r, launchAttempt s env tr = some r
          ∧ r = publishStep env.atPublish (logErr (s.Start env.sh (tr ++ pollTrace 60)))
          ∧ runCount r.2.2 = runCount tr + 1
          ∧ (env.sh (tr ++ pollTrace 60 ++ [Event.stdout ("Starting service " ++ s.Name)])
                ["/usr/bin/sh", "-c", Command.String s.Startup] = none →
              r.1.state = started)
          ∧ (∀ e : Error,
              env.sh (tr ++ pollTrace 60 ++ [Event.stdout ("Starting service " ++ s.Name)])
                ["/usr/bin/sh", "-c", Command.String s.Startup] = some e →
              r.1.state = errored) := by
  obtain ⟨hloop, hatt⟩ := launchAttempt_missing s env tr x hs hx hmiss
  refine ⟨hloop, ?_, _, hatt, rfl, ?_, ?_, ?_⟩
  · rw [pollCount_append, pollCount_pollTrace]
  · rw [publishStep_runCount, logErr_runCount, Start_runCount s _ _ hs]
    simp [runCount_append, runCount_pollTrace]
  · intro hrun
    simp only [publishStep]
    rw [logErr_service, Start_success s env.sh _ hs hrun]
  · intro e hrun
    simp only [publishStep]
    rw [logErr_service, Start_failure s env.sh _ e hs hrun]

theorem missing_provider_starts_after_budget_witness :
    svcDb.state = notStarted ∧ "net" ∈ svcDb.Needs
      ∧ (∀ i, i < 60 → (envNothing.polls i).index "net" = false)
      ∧ readinessLoop svcDb envNothing.polls 60 false 0 []
          = some (false, 60, [] ++ pollTrace 60) :=
  ⟨rfl, by decide, fun _ _ => rfl,
   (missing_provider_starts_after_budget svcDb envNothing [] "net" rfl (by decide)
     (fun _ _ => rfl)).1⟩

/-- C7: for every service, every environment and every content of the map when
the write lock is obtained, the goroutine ends with the map equal to that
content with every element of `Provides` bound to `true`: each provided
capability is present, whatever `Start()` did or whether it was called, each
other key is as before, and what was present stays present. -/
theorem launchAttempt_publishes_provides (s : Service) (env : Env) (tr : Trace) :
    ∃ r, launchAttempt s env tr = some r
      ∧ r.2.1 = publish env.atPublish s.Provides
      ∧ (∀ t, r.2.1 t = if t ∈ s.Provides then some true else env.atPublish t)
      ∧ (∀ t ∈ s.Provides, r.2.1.index t = true)
      ∧ (∀ t, env.atPublish.index t = true → r.2.1.index t = true) := by
  obtain ⟨n, _, _, hatt, _⟩ := launchAttempt_run s env tr
  have hreg : (publishStep env.atPublish (startStep s env.sh (tr ++ pollTrace n))).2.1
      = publish env.atPublish s.Provides := by
    simp only [publishStep]
    rw [startStep_Provides]
  refine ⟨_, hatt, hreg, ?_, ?_, ?_⟩
  · intro t
    rw [hreg, publish_apply]
  · intro t ht
    rw [hreg, index_eq_true, publish_apply]
    simp [ht]
  · intro t ht
    rw [hreg, index_eq_true, publish_apply]
    by_cases hmem : t ∈ s.Provides
    · simp [hmem]
    · simpa [hmem] using (index_eq_true env.atPublish t).1 ht

/-- C8: for a service in `notStarted` the goroutine calls `Start()` on the events
of the readiness loop however the loop ended, with a satisfied poll or with all
60 polls unsatisfied, and the start-up command is run exactly once; using up
the 60 polls does not stop the start. -/
theorem launchAttempt_starts_after_loop (s : Service) (env : Env) (tr : Trace)
    (hs : s.state = notStarted) :
    ∃ (n : Nat) (sat : Bool),
      readinessLoop s env.polls 60 false 0 tr = some (sat, n, tr ++ pollTrace n)
        ∧ launchAttempt s env tr
            = some (publishStep env.atPublish (logErr (s.Start env.sh (tr ++ pollTrace n))))
        ∧ runCount (publishStep env.atPublish
            (logErr (s.Start env.sh (tr ++ pollTrace n)))).2.2 = runCount tr + 1
        ∧ ((sat = true ∧ pollResult s env.polls (n - 1) = true)
            ∨ (sat = false ∧ n = 60 ∧ ∀ j, j < 60 → pollResult s env.polls j = false))
        ∧ ((∀ j, j < 60 → pollResult s env.polls j = false) → sat = false ∧ n = 60) := by
  obtain ⟨n, sat, hloop, hatt, h1, h2, _, hend⟩ := launchAttempt_run s env tr
  refine ⟨n, sat, hloop, ?_, ?_, hend, ?_⟩
  · rw [hatt, startStep_notStarted s env.sh _ hs]
  · rw [publishStep_runCount, logErr_runCount, Start_runCount s _ _ hs]
    simp [runCount_append, runCount_pollTrace]
  · intro hall
    rcases hend with ⟨_, h4⟩ | ⟨h3, h4, _⟩
    · rw [hall (n - 1) (by omega)] at h4
      cases h4
    · exact ⟨h3, h4⟩

theorem launchAttempt_starts_after_loop_witness :
    svcDb.state = notStarted
      ∧ ∃ (n : Nat) (sat : Bool),
        readinessLoop svcDb envNothing.polls 60 false 0 [] = some (sat, n, [] ++ pollTrace n)
          ∧ launchAttempt svcDb envNothing []
              = some (publishStep envNothing.atPublish
                  (logErr (svcDb.Start envNothing.sh ([] ++ pollTrace n))))
          ∧ runCount (publishStep envNothing.atPublish
              (logErr (svcDb.Start envNothing.sh ([] ++ pollTrace n)))).2.2 = runCount [] + 1
          ∧ ((sat = true ∧ pollResult svcDb envNothing.polls (n - 1) = true)
              ∨ (sat = false ∧ n = 60
                  ∧ ∀ j, j < 60 → pollResult svcDb envNothing.polls j = false))
          ∧ ((∀ j, j < 60 → pollResult svcDb envNothing.polls j = false)
              → sat = false ∧ n = 60) :=
  ⟨rfl, launchAttempt_starts_after_loop svcDb envNothing [] rfl⟩

/-- C9, as stated, fails: `StartServices` is given the map `{x: [a], y: [a]}` with
one record `a` in `notStarted`, so two goroutines run on `a`.  Both go through
their readiness loop while `a` is `notStarted`; goroutine 0 enters `Start()`,
sets `starting` and waits in `cmd.Run()`; goroutine 1 then reads `starting` at
line 67, skips `Start()`, publishes and ends: its launch attempt, begun in
`notStarted`, finishes with the service in `starting`. -/
theorem second_attempt_ends_in_starting :
    launched twiceListed = [0, 0]
      ∧ (heapTwo 0).state = notStarted
      ∧ ((runSchedule shOk (launched twiceListed) [0, 0, 1, 1]
            (initialMachine twiceListed heapTwo)).heap 0).state = notStarted
      ∧ (runSchedule shOk (launched twiceListed) [0, 0, 1, 1]
            (initialMachine twiceListed heapTwo)).pcs 1 = Pc.guard
      ∧ (runSchedule shOk (launched twiceListed) [0, 0, 1, 1, 0, 0, 0, 1, 1]
            (initialMachine twiceListed heapTwo)).pcs 1 = Pc.done
      ∧ (runSchedule shOk (launched twiceListed) [0, 0, 1, 1, 0, 0, 0, 1, 1]
            (initialMachine twiceListed heapTwo)).pcs 0 = Pc.inRun
      ∧ ((runSchedule shOk (launched twiceListed) [0, 0, 1, 1, 0, 0, 0, 1, 1]
            (initialMachine twiceListed heapTwo)).heap 0).state = starting
      ∧ ((runSchedule shOk (launched twiceListed) [0, 0, 1, 1, 0, 0, 0, 1, 1]
            (initialMachine twiceListed heapTwo)).heap 0).state ≠ started
      ∧ ((runSchedule shOk (launched twiceListed) [0, 0, 1, 1, 0, 0, 0, 1, 1]
            (initialMachine twiceListed heapTwo)).heap 0).state ≠ errored := by
  refine ⟨rfl, rfl, ?_, ?_, ?_, ?_, ?_, ?_, ?_⟩ <;> decide

/-- C9, amended: for a record in `notStarted` when `StartServices` is called, under
every order of the goroutines' steps and every answer of the start-up commands:
once a goroutine on the record has ended, the state is `starting`, `started` or
`errored`, and it is `starting` only while another goroutine on the record is
inside `cmd.Run()`; when `StartServices` returns (the counter of the wait group
is 0) a listed record is in `started` or `errored`, never `notStarted`,
`starting` or `stopped`, only its state has changed and its start-up command
has been run; and `StartServices` returns whenever each goroutine gets 66
steps. -/
theorem StartServices_terminal_at_return (services : List (ServiceType × List Nat))
    (heap : Nat → Service) (sh : Shell) (schedule : List Nat) (p : Nat)
    (hp : (heap p).state = notStarted) :
    (∀ j, (launched services).get? j = some p →
        (runSchedule sh (launched services) schedule (initialMachine services heap)).pcs j
          = Pc.done →
        (((runSchedule sh (launched services) schedule
              (initialMachine services heap)).heap p).state = starting
          ∨ ((runSchedule sh (launched services) schedule
              (initialMachine services heap)).heap p).state = started
          ∨ ((runSchedule sh (launched services) schedule
              (initialMachine services heap)).heap p).state = errored)
        ∧ (((runSchedule sh (launched services) schedule
              (initialMachine services heap)).heap p).state = starting →
            ∃ k, (launched services).get? k = some p
              ∧ (runSchedule sh (launched services) schedule
                  (initialMachine services heap)).pcs k = Pc.inRun))
      ∧ (∀ m, StartServices services heap sh schedule = some m → p ∈ launched services →
          ((m.heap p).state = started ∨ (m.heap p).state = errored)
            ∧ (m.heap p).state ≠ notStarted ∧ (m.heap p).state ≠ starting
            ∧ (m.heap p).state ≠ stopped
            ∧ ({ m.heap p with state := (heap p).state } : Service) = heap p
            ∧ Event.run ["/usr/bin/sh", "-c", Command.String (heap p).Startup] ∈ m.tr)
      ∧ ((∀ j, j < (launched services).length → 66 ≤ schedule.count j) →
          ∃ m, StartServices services heap sh schedule = some m) := by
  have inv := runSchedule_recordInv sh (launched services) p schedule _
    (initialMachine_recordInv services heap (launched services) p hp)
  have ran := runSchedule_ranInv sh (launched services) heap p schedule _
    (initialMachine_ranInv services heap p hp)
  have hwg := runSchedule_wgInv sh (launched services) schedule _
    (initialMachine_wgInv services heap)
  obtain ⟨h1, h2, h3⟩ := inv
  have hended : ∀ j, (launched services).get? j = some p →
      (runSchedule sh (launched services) schedule (initialMachine services heap)).pcs j
        = Pc.done →
      ((runSchedule sh (launched services) schedule
        (initialMachine services heap)).heap p).state ≠ notStarted := by
    intro j hj hdone hns
    have := h2 hns j hj
    rw [hdone] at this
    cases this
  refine ⟨?_, ?_, ?_⟩
  · intro j hj hdone
    refine ⟨?_, h3⟩
    rcases h1 with h | h | h | h
    · exact absurd h (hended j hj hdone)
    · exact Or.inl h
    · exact Or.inr (Or.inl h)
    · exact Or.inr (Or.inr h)
  · intro m hm hmem
    unfold StartServices at hm
    split at hm
    next hzero =>
      have hmeq := Option.some.inj hm
      subst hmeq
      unfold wgInv at hwg
      rw [hzero] at hwg
      have hall := (pending_zero _ _).1 (by exact_mod_cast hwg.symm)
      obtain ⟨j, hj⟩ := List.mem_iff_get?.1 hmem
      have hne := hended j hj (hall j (get?_lt _ j p hj))
      have hnst : ((runSchedule sh (launched services) schedule
          (initialMachine services heap)).heap p).state ≠ starting := by
        intro hst
        obtain ⟨k, hk, hrun⟩ := h3 hst
        rw [hall k (get?_lt _ k p hk)] at hrun
        cases hrun
      have hterm : ((runSchedule sh (launched services) schedule
            (initialMachine services heap)).heap p).state = started
          ∨ ((runSchedule sh (launched services) schedule
            (initialMachine services heap)).heap p).state = errored := by
        rcases h1 with h | h | h | h
        · exact absurd h hne
        · exact absurd h hnst
        · exact Or.inl h
        · exact Or.inr h
      refine ⟨hterm, hne, hnst, ?_, ran.1, ran.2 hterm⟩
      rcases hterm with h | h <;> rw [h] <;> decide
    next => cases hm
  · intro hfair
    have hall : ∀ j, j < (launched services).length →
        (runSchedule sh (launched services) schedule (initialMachine services heap)).pcs j
          = Pc.done := by
      intro j hj
      apply stepsLeft_zero
      have := runSchedule_stepsLeft sh (launched services) j hj schedule
        (initialMachine services heap)
      have h66 := hfair j hj
      have hinit : stepsLeft ((initialMachine services heap).pcs j) = 66 := rfl
      omega
    have hzero : (runSchedule sh (launched services) schedule
        (initialMachine services heap)).wg = 0 := by
      unfold wgInv at hwg
      rw [hwg, (pending_zero _ _).2 hall]
      rfl
    exact ⟨_, by unfold StartServices; rw [if_pos hzero]⟩

theorem StartServices_terminal_at_return_witness :
    (heapTwo 0).state = notStarted
      ∧ ∃ m, StartServices twiceListed heapTwo shOk [0, 0, 1, 1, 0, 0, 0, 1, 1, 0, 0] = some m
          ∧ ((m.heap 0).state = started ∨ (m.heap 0).state = errored)
          ∧ (m.heap 0).state = started :=
  ⟨rfl, _, rfl,
   ((StartServices_terminal_at_return twiceListed heapTwo shOk
      [0, 0, 1, 1, 0, 0, 0, 1, 1, 0, 0] 0 rfl).2.1 _ rfl (by decide)).1,
   by decide⟩

/-- C10: for every service and every content of the map at each poll, the
readiness loop ends after a number `n` of polls, each followed by a sleep of 2
seconds, so it adds `n` polls and `2 * n` seconds of sleep, at most 120; `n` is
`min k 60` when `k` is the 1-based index of the first satisfied poll, and 60
when none of the 60 polls is satisfied.  Nothing is assumed on the map, so this
covers cyclic dependencies. -/
theorem readinessLoop_polls_min (s : Service) (polls : Nat → Registry) (tr : Trace) :
    ∃ (n : Nat) (sat : Bool),
      readinessLoop s polls 60 false 0 tr = some (sat, n, tr ++ pollTrace n)
        ∧ pollCount (tr ++ pollTrace n) = pollCount tr + n
        ∧ sleepTotal (tr ++ pollTrace n) = sleepTotal tr + 2 * n
        ∧ 2 * n ≤ 120
        ∧ (∀ k, 1 ≤ k → pollResult s polls (k - 1) = true →
            (∀ j, j < k - 1 → pollResult s polls j = false) → n = min k 60)
        ∧ ((∀ j, j < 60 → pollResult s polls j = false) → n = 60) := by
  obtain ⟨n, sat, hloop, h1, h2, hbefore, hend⟩ := readinessLoop_run s polls tr
  refine ⟨n, sat, hloop, ?_, ?_, by omega, ?_, ?_⟩
  · rw [pollCount_append, pollCount_pollTrace]
  · rw [sleepTotal_append, sleepTotal_pollTrace]
  · intro k hk hsat hfirst
    rcases hend with ⟨_, h4⟩ | ⟨_, h4, h5⟩
    · have hkn : k = n := by
        by_contra hne
        rcases Nat.lt_or_gt_of_ne hne with hlt | hgt
        · have := hbefore (k - 1) (by omega)
          rw [this] at hsat
          cases hsat
        · have := hfirst (n - 1) (by omega)
          rw [this] at h4
          cases h4
      rw [hkn]
      exact (Nat.min_eq_left h2).symm
    · have hk60 : 60 ≤ k - 1 := by
        by_contra hlt
        have := h5 (k - 1) (by omega)
        rw [this] at hsat
        cases hsat
      rw [h4]
      exact (Nat.min_eq_right (by omega)).symm
  · intro hall
    rcases hend with ⟨_, h4⟩ | ⟨_, h4, _⟩
    · rw [hall (n - 1) (by omega)] at h4
      cases h4
    · exact h4

end Rinit
